import Mathlib

/-!
Verification development for the `pqc-tls-bench` repository.

The definitions below are shallow embeddings of the Python functions in
`scripts/summarize_results.py` and `scripts/parse_sig_speed.py`.
Floating-point numbers are modelled by exact rationals; the NaN sentinel
used by the scripts as a missing-value marker is modelled by `Option.none`.
Non-finite float literals ("inf"/"infinity", which never occur in the
benchmark data) are outside the rational value model: the value parser maps
them to the missing sentinel, while the pure acceptance test `is_num`
(which never looks at the value) models them faithfully.  Python string
primitives (`str.strip`, `str.lower`, `str.split`) are modelled over the
character list of the string, for the ASCII data these scripts process.
-/

attribute [local semireducible] Rat.mul Rat.add Rat.sub Rat.inv

namespace PqcBench

/-- A Python float as used by the scripts: either a real (rational) value or
the NaN sentinel meaning "missing". -/
abbrev Val := Option ℚ

/-! ### Python string primitives over `List Char` -/

/-- Python whitespace (the characters `str.strip()` and `str.split()`
treat as space, restricted to ASCII). -/
def pyIsSpace (c : Char) : Bool :=
  c = ' ' || c = '\t' || c = '\n' || c = '\r' || c = '\x0b' || c = '\x0c'

/-- ASCII lower-casing of one character, as `str.lower()` does on the
ASCII data of these scripts. -/
def pyLowerChar (c : Char) : Char :=
  if 'A' ≤ c ∧ c ≤ 'Z' then Char.ofNat (c.toNat + 32) else c

/-- Python `str.strip()`. -/
def pyStrip (l : List Char) : List Char :=
  ((l.dropWhile pyIsSpace).reverse.dropWhile pyIsSpace).reverse

/-- Python `str.lower()`. -/
def pyLower (l : List Char) : List Char := l.map pyLowerChar

/-- `s.strip().lower()` packaged back into a string. -/
def pyNorm (s : String) : String := String.mk (pyLower (pyStrip s.data))

/-- Python `str.split()` with no argument: split on whitespace runs,
producing no empty tokens. -/
def pySplitWsChars : List Char → List (List Char)
  | [] => []
  | c :: rest =>
    if pyIsSpace c then pySplitWsChars rest
    else
      match rest with
      | [] => [[c]]
      | r0 :: _ =>
        if pyIsSpace r0 then [c] :: pySplitWsChars rest
        else
          match pySplitWsChars rest with
          | [] => [[c]]
          | t :: ts => (c :: t) :: ts

/-- Whitespace tokens of a string, Python `line.split()`. -/
def pyTokens (s : String) : List String :=
  (pySplitWsChars s.data).map String.mk

/-- Split a character list at newline characters (keeping empty pieces). -/
def pyLinesChars : List Char → List (List Char)
  | [] => [[]]
  | c :: rest =>
    if c = '\n' then [] :: pyLinesChars rest
    else
      match pyLinesChars rest with
      | [] => [[c]]
      | t :: ts => (c :: t) :: ts

/-- The lines of a text, Python `text.splitlines()` restricted to `'\n'`
separators (the raw files these scripts read use Unix line endings).
Unlike Python `splitlines`, a trailing newline yields one final empty
line; empty lines carry no tokens, so the scripts never distinguish
the two. -/
def pyLines (text : String) : List String :=
  (pyLinesChars text.data).map String.mk

/-! ### Python `float(str)` parsing -/

/-- Numeric value of a decimal digit character. -/
def digitVal (c : Char) : ℕ := c.toNat - 48

/-- Consume a run of decimal digits (with CPython's underscore rule: an
underscore must sit between two digits), returning the accumulated value,
the number of digits consumed, and the remaining characters.  Returns `none`
when an underscore is misplaced. -/
def digitsGo : ℕ → ℕ → List Char → Option (ℕ × ℕ × List Char)
  | acc, len, [] => some (acc, len, [])
  | acc, len, c :: rest =>
    if c.isDigit then digitsGo (acc * 10 + digitVal c) (len + 1) rest
    else if c = '_' then
      match rest with
      | d :: rest2 =>
        if d.isDigit then digitsGo (acc * 10 + digitVal d) (len + 1) rest2 else none
      | [] => none
    else some (acc, len, c :: rest)

/-- Consume a nonempty digit run, as in CPython's float grammar. -/
def parseDigitsOpt (l : List Char) : Option (ℕ × ℕ × List Char) :=
  match l with
  | c :: rest => if c.isDigit then digitsGo (digitVal c) 1 rest else none
  | [] => none

/-- Consume an optional exponent part (`e`/`E`, optional sign, digits) that
must reach the end of the input; an empty input means exponent 0. -/
def parseExpPart (l : List Char) : Option ℤ :=
  match l with
  | [] => some 0
  | c :: rest =>
    if c = 'e' ∨ c = 'E' then
      let signRest : Bool × List Char :=
        match rest with
        | s :: r2 => if s = '-' then (true, r2) else if s = '+' then (false, r2) else (false, rest)
        | [] => (false, rest)
      match parseDigitsOpt signRest.2 with
      | some (e, _, []) => some (if signRest.1 then -(e : ℤ) else (e : ℤ))
      | _ => none
    else none

/-- Magnitude of a finite float literal (`digits [. digits] [exp]` or
`. digits [exp]`), CPython grammar, without sign. -/
def parseFinMag (l : List Char) : Option ℚ :=
  match parseDigitsOpt l with
  | some (ip, _, rest) =>
    match rest with
    | '.' :: rest2 =>
      match parseDigitsOpt rest2 with
      | some (fp, flen, rest3) =>
        (parseExpPart rest3).map (fun e => ((ip : ℚ) + (fp : ℚ) / 10 ^ flen) * 10 ^ e)
      | none => (parseExpPart rest2).map (fun e => (ip : ℚ) * 10 ^ e)
    | _ => (parseExpPart rest).map (fun e => (ip : ℚ) * 10 ^ e)
  | none =>
    match l with
    | '.' :: rest2 =>
      match parseDigitsOpt rest2 with
      | some (fp, flen, rest3) =>
        (parseExpPart rest3).map (fun e => ((fp : ℚ) / 10 ^ flen) * 10 ^ e)
      | none => none
    | _ => none

/-- Strip an optional leading sign, returning whether it was `-`. -/
def stripSign (l : List Char) : Bool × List Char :=
  match l with
  | '+' :: r => (false, r)
  | '-' :: r => (true, r)
  | _ => (false, l)

/-- Python `float(s)` for finite literals: trims surrounding whitespace,
handles an optional sign, and parses the finite-float grammar.  Non-finite
literals (`inf`, `nan`, case-insensitive) yield `none` here; in the scripts
the NaN result is indistinguishable from the missing sentinel, and
infinities never occur in the data. -/
def parseFloat (s : String) : Option ℚ :=
  let sl := stripSign (pyStrip s.data)
  (parseFinMag sl.2).map (fun q => if sl.1 then -q else q)

/-- Acceptance test of Python `float(s)`: `true` iff `float(s)` would
succeed, including the non-finite literals `inf`/`infinity`/`nan`
(case-insensitive, optional sign). -/
def pyFloatAccepts (s : String) : Bool :=
  let sl := stripSign (pyLower (pyStrip s.data))
  sl.2 = "inf".data || sl.2 = "infinity".data || sl.2 = "nan".data ||
    (parseFinMag sl.2).isSome

/-! ### `summarize_results.py`: coercion, validity, statistics -/

/-- `summarize_results.to_float`: coerce a raw CSV cell (absent cell =
`none`, otherwise its text) to a float-or-NaN; the NaN sentinel is `none`.
The literal token check uses the code's tuple `("", "nan", "na", "none")`;
any other text goes to `float()`, whose failure is caught and yields NaN. -/
def to_float (x : Option String) : Val :=
  match x with
  | none => none
  | some s =>
    let xs := pyNorm s
    if xs ∈ (["", "nan", "na", "none"] : List String) then none
    else parseFloat xs

/-- `summarize_results.is_trueish`: `None` and whitespace-only values
count as true; otherwise membership of the stripped lower-cased text in
`("1", "true", "yes", "y", "ok")`. -/
def is_trueish (x : Option String) : Bool :=
  match x with
  | none => true
  | some v =>
    let s := pyNorm v
    if s = "" then true
    else s ∈ (["1", "true", "yes", "y", "ok"] : List String)

/-- `summarize_results.clean`: drop the NaN entries of a series. -/
def clean (vals : List Val) : List ℚ := vals.filterMap id

/-- Arithmetic mean (`statistics.mean`). -/
def mean_q (l : List ℚ) : ℚ := l.sum / l.length

/-- Population variance: mean squared deviation from the mean
(the quantity whose square root `statistics.pstdev` returns). -/
def pvariance (l : List ℚ) : ℚ :=
  (l.map (fun x => (x - mean_q l) ^ 2)).sum / l.length

/-- `summarize_results.mean_std`: clean the series, then return
`(nan, nan)` when empty, `(v, 0.0)` for a singleton, and
`(statistics.mean, statistics.pstdev)` otherwise.  The standard deviation
lives in `ℝ` because `pstdev` is the square root of the variance. -/
noncomputable def mean_std (vals : List Val) : Option ℚ × Option ℝ :=
  match clean vals with
  | [] => (none, none)
  | [v] => (some v, some 0)
  | v0 :: v1 :: rest =>
    (some (mean_q (v0 :: v1 :: rest)),
     some (Real.sqrt ((pvariance (v0 :: v1 :: rest) : ℚ) : ℝ)))

/-- `statistics.median` on a nonempty list: midpoint rule on the sorted
values (callers never evaluate it on an empty list). -/
def median_core (l : List ℚ) : ℚ :=
  let s := l.insertionSort (fun a b => a ≤ b)
  let n := l.length
  if n % 2 = 1 then s.getD (n / 2) 0
  else (s.getD (n / 2 - 1) 0 + s.getD (n / 2) 0) / 2

/-- `summarize_results.median`: clean, then NaN on empty else the median. -/
def median (vals : List Val) : Val :=
  match clean vals with
  | [] => none
  | v :: rest => some (median_core (v :: rest))

/-! ### `summarize_results.bootstrap_ci`

The seeded generator `random.Random(seed)` is a deterministic function of
the seed; it is modelled by the stream `rng : ℕ → ℕ` of its successive raw
draws, with `rng.randrange(n)` taken modulo `n`.  The resampling loop
consumes draws in order: iteration `t` uses draws `t*n, …, t*n + n - 1`. -/

/-- One bootstrap resample: `[vals[rng.randrange(n)] for _ in range(n)]`. -/
def resample (cv : List ℚ) (rng : ℕ → ℕ) (t : ℕ) : List ℚ :=
  (List.range cv.length).map (fun j => cv.getD (rng (t * cv.length + j) % cv.length) 0)

/-- Python `int()` on a rational: truncation toward zero. -/
def pyInt (q : ℚ) : ℤ := if q < 0 then ⌈q⌉ else ⌊q⌋

/-- `max(0, min(iters-1, i))`, converted to a list index. -/
def clampIdx (iters : ℕ) (i : ℤ) : ℕ := (max 0 (min ((iters : ℤ) - 1) i)).toNat

/-- `summarize_results.bootstrap_ci`: percentile bootstrap confidence
interval.  `stat` is the Python string argument (`"median"` selects the
median, anything else the mean, as in the code). -/
def bootstrap_ci (vals : List Val) (stat : String) (iters : ℕ) (alpha : ℚ)
    (rng : ℕ → ℕ) : Val × Val :=
  let cv := clean vals
  if cv.length < 2 then (none, none)
  else
    let raw := (List.range iters).map (fun t =>
      let sample := resample cv rng t
      if stat = "median" then median_core sample else mean_q sample)
    let sorted := raw.insertionSort (fun a b => a ≤ b)
    let lo := clampIdx iters (pyInt (alpha / 2 * iters))
    let hi := clampIdx iters (pyInt ((1 - alpha / 2) * iters) - 1)
    (some (sorted.getD lo 0), some (sorted.getD hi 0))

/-! ### `summarize_results.f` and the JSON boundary -/

/-- Round-half-even of a rational to an integer (the rounding used by
Python's fixed-point float formatting). -/
def roundHalfEven (q : ℚ) : ℤ :=
  let f := ⌊q⌋
  let r := q - (f : ℚ)
  if r < 1/2 then f
  else if 1/2 < r then f + 1
  else if f % 2 = 0 then f else f + 1

/-- Left-pad a digit string with zeros to width `n`. -/
def padZeros (s : String) (n : ℕ) : String :=
  String.mk (List.replicate (n - s.length) '0') ++ s

/-- Fixed-point rendering of a rational with `nd` decimals, modelling
Python's `f"{x:.{nd}f}"` (idealized to exact arithmetic). -/
def fmtFixed (q : ℚ) (nd : ℕ) : String :=
  let m : ℤ := roundHalfEven (q * (10 : ℚ) ^ nd)
  let sign := if m < 0 then "-" else ""
  let a := m.natAbs
  if nd = 0 then sign ++ toString a
  else sign ++ toString (a / 10 ^ nd) ++ "." ++ padZeros (toString (a % 10 ^ nd)) nd

/-- `summarize_results.f`: table-cell formatter.  A NaN value renders as
the literal text `"nan"`; otherwise fixed-point with `nd` decimals. -/
def fmt_cell (x : Val) (nd : ℕ) : String :=
  match x with
  | none => "nan"
  | some q => fmtFixed q nd

/-- A JSON scalar as produced for numeric fields by `json.dump` with its
default `allow_nan=True`: a NaN float serializes as the (non-strict) token
`NaN`, not as `null`. -/
inductive JVal
  | num (q : ℚ)
  | nan
  | null
deriving DecidableEq

/-- The JSON scalar `json.dump` emits for one float field of the artifact. -/
def jval_of_val (v : Val) : JVal :=
  match v with
  | none => JVal.nan
  | some q => JVal.num q

/-! ### `summarize_results.main`: row handling -/

/-- One CSV row as produced by `csv.DictReader`: an association list from
column name to cell text (keys unique, in header order). -/
abbrev Row := List (String × String)

/-- Python `row.get(k)`: the value under `k`, or `None` when absent. -/
def rowGet (r : Row) (k : String) : Option String :=
  (r.find? (fun p => p.1 == k)).map (fun p => p.2)

/-- Python `k in row`. -/
def rowHas (r : Row) (k : String) : Bool :=
  (r.find? (fun p => p.1 == k)).isSome

/-- The TLS-throughput section's per-row admission (lines 84–89 of
`summarize_results.py`): skip the row when an `ok` column is present and
not trueish; coerce `conn_user_sec`; keep the value only when it is
non-NaN and strictly positive. -/
def tls_admit (r : Row) : Option ℚ :=
  if rowHas r "ok" && !(is_trueish (rowGet r "ok")) then none
  else
    match to_float (rowGet r "conn_user_sec") with
    | some v => if 0 < v then some v else none
    | none => none

/-- The cleaned TLS-throughput series `vals_raw` built by the main loop. -/
def tls_throughput_vals (rows : List Row) : List ℚ :=
  rows.filterMap tls_admit

/-- The signature-speed grouping key: the stripped `alg` cell, with empty
or absent keys dropping the row (`if not alg: continue`). -/
def sigKey (r : Row) : Option String :=
  let a := String.mk (pyStrip (((rowGet r "alg").getD "").data))
  if a = "" then none else some a

/-- The per-algorithm series for one value column of `sig_speed.csv`:
every row grouped under `alg` contributes `to_float` of its cell, in row
order (the `defaultdict` append loop). -/
def sig_series (rows : List Row) (alg : String) (field : String) : List Val :=
  (rows.filter (fun r => sigKey r == some alg)).map (fun r => to_float (rowGet r field))

/-- Append a key to the ordered key set, keeping first-occurrence order
(`defaultdict` insertion order). -/
def insertKey (ks : List String) (k : String) : List String :=
  if k ∈ ks then ks else ks ++ [k]

/-- One row's effect on the ordered key set of `by_alg`. -/
def sigStep (ks : List String) (r : Row) : List String :=
  match sigKey r with
  | some a => insertKey ks a
  | none => ks

/-- The grouping keys of `by_alg`, in first-occurrence order. -/
def sig_algs (rows : List Row) : List String :=
  rows.foldl sigStep []

/-- Drop the `ok` column from a row. -/
def dropOk (r : Row) : Row := r.filter (fun p => p.1 != "ok")

/-- Lexicographic code-point comparison of character lists (how Python
compares strings). -/
def strLtB : List Char → List Char → Bool
  | [], [] => false
  | [], _ :: _ => true
  | _ :: _, [] => false
  | a :: as, b :: bs => if a < b then true else if b < a then false else strLtB as bs

/-- Python string `<=`: strictly smaller or equal. -/
def pyStrLe (a b : String) : Bool := strLtB a.data b.data || a == b

/-- The order relation `sorted()` uses on the algorithm keys. -/
def strLeProp (a b : String) : Prop := pyStrLe a b = true

instance : DecidableRel strLeProp := fun _ _ => instDecidableEqBool _ _

/-- The rendering order of the per-algorithm table:
`for alg in sorted(by_alg.keys())`. -/
def sig_sorted_algs (rows : List Row) : List String :=
  (sig_algs rows).insertionSort strLeProp

/-! ### `parse_sig_speed.py` -/

/-- `parse_sig_speed.is_num`: `float(x)` succeeds (exceptions swallowed). -/
def is_num (s : String) : Bool := pyFloatAccepts s

/-- Trailing-three-numeric-token extraction: `nums[-3], nums[-2], nums[-1]`. -/
def lastThree (nums : List String) : Option (String × String × String) :=
  match nums.reverse with
  | v :: s :: k :: _ => some (k, s, v)
  | _ => none

/-- The line scan of `parse_pqc_row`: first line whose leading token equals
`alg` and which carries at least three numeric tokens wins. -/
def parse_pqc_row_go (lines : List String) (alg : String) :
    Option (String × String × String) :=
  match lines with
  | [] => none
  | line :: rest =>
    match pyTokens line with
    | [] => parse_pqc_row_go rest alg
    | p0 :: ps =>
      if p0 = alg then
        match ((p0 :: ps).filter is_num).reverse with
        | v :: s :: k :: _ => some (k, s, v)
        | _ => parse_pqc_row_go rest alg
      else parse_pqc_row_go rest alg

/-- `parse_sig_speed.parse_pqc_row`. -/
def parse_pqc_row (text : String) (alg : String) : Option (String × String × String) :=
  parse_pqc_row_go (pyLines text) alg

/-- The first line of `text` whose leading whitespace token is exactly
`alg` (the line the specification's extraction rule designates). -/
def firstAlgLine (text : String) (alg : String) : Option String :=
  (pyLines text).find? (fun line => (pyTokens line).head? == some alg)

/-! ### Spec-side definitions (refinement targets) -/

/-- The missing-token set named by the specification (it lists `"null"` in
addition to the code's four literals). -/
def missing_tokens_spec : List String := ["", "nan", "na", "none", "null"]

/-- The specification's characterization of when coercion yields MISSING:
absent cell, a recognized missing token (trimmed, lower-cased), or a failed
numeric parse of the text. -/
def to_float_missing_spec (x : Option String) : Prop :=
  x = none ∨ ∃ s, x = some s ∧
    (pyNorm s ∈ missing_tokens_spec ∨ parseFloat (pyNorm s) = none)

/-! ### Theorems -/

/-- C1 (code evaluated at the failing input): a `SummaryStat` with `n = 0`
has missing mean, and the renderer `f` emits the literal text `"nan"` for
it rather than a placeholder glyph, while `json.dump` (default
`allow_nan=True`) serializes the NaN float as the non-strict token `NaN`,
not as `null`. -/
theorem missing_renders_nan_not_null :
    fmt_cell none 2 = "nan" ∧
    jval_of_val (mean_std [(none : Val)]).1 = JVal.nan ∧
    JVal.nan ≠ JVal.null := by
  refine ⟨rfl, ?_, by decide⟩
  have h : clean [(none : Val)] = [] := by decide
  simp [mean_std, h, jval_of_val]

/-- Helper: the population variance is nonnegative. -/
theorem pvariance_nonneg (l : List ℚ) : 0 ≤ pvariance l := by
  unfold pvariance
  refine div_nonneg (List.sum_nonneg ?_) (Nat.cast_nonneg _)
  intro x hx
  rcases List.mem_map.mp hx with ⟨y, _, rfl⟩
  exact sq_nonneg _

/-- C2 (counterexample): on the throughput scenario series
`["12.0", "nan", "8.0"]` the code's `mean_std` returns the population
standard deviation `2.0`; the sample standard deviation `sqrt 8 = 2.828…`
differs from it, and `mean_std` offers no mode that would produce it. -/
theorem mean_std_no_sample_mode :
    mean_std [some 12, none, some 8] = (some 10, some 2) ∧
    (2 : ℝ) ≠ Real.sqrt 8 := by
  constructor
  · have hc : clean [some (12 : ℚ), none, some 8] = [12, 8] := by decide
    have hm : mean_q [(12 : ℚ), 8] = 10 := by decide
    have hv : pvariance [(12 : ℚ), 8] = 4 := by decide
    simp only [mean_std, hc, hm, hv]
    have h4 : ((4 : ℚ) : ℝ) = (2 : ℝ) ^ 2 := by norm_num
    rw [h4, Real.sqrt_sq (by norm_num : (0 : ℝ) ≤ 2)]
  · intro heq
    have h8 : ((8 : ℝ)) = Real.sqrt 8 ^ 2 :=
      (Real.sq_sqrt (by norm_num : (0 : ℝ) ≤ 8)).symm
    rw [← heq] at h8
    norm_num at h8

/-- C2 (amended): `mean_std` has no variance-mode parameter; for every
series with at least two valid values it returns the arithmetic mean and
the population standard deviation (nonnegative square root of the mean
squared deviation, divisor `n`). -/
theorem mean_std_population_std (vals : List Val)
    (h2 : 2 ≤ (clean vals).length) :
    ∃ m s, mean_std vals = (some m, some s) ∧
      m = (clean vals).sum / (clean vals).length ∧
      0 ≤ s ∧
      s ^ 2 = ((((clean vals).map (fun x => (x - m) ^ 2)).sum /
        (clean vals).length : ℚ) : ℝ) := by
  rcases hcv : clean vals with _ | ⟨v0, _ | ⟨v1, rest⟩⟩
  · rw [hcv] at h2; simp at h2
  · rw [hcv] at h2; simp at h2
  · refine ⟨mean_q (v0 :: v1 :: rest), Real.sqrt ((pvariance (v0 :: v1 :: rest) : ℚ) : ℝ),
      ?_, ?_, Real.sqrt_nonneg _, ?_⟩
    · simp [mean_std, hcv]
    · rfl
    · rw [Real.sq_sqrt (by exact_mod_cast pvariance_nonneg _)]
      rfl

/-- C2 (witness for the amended theorem): the scenario series has two valid
values and the amended description holds there. -/
theorem mean_std_population_std_witness :
    2 ≤ (clean [some 12, none, some 8]).length ∧
    ∃ m s, mean_std [some 12, none, some 8] = (some m, some s) ∧
      m = (clean [some 12, none, some 8]).sum / (clean [some 12, none, some 8]).length ∧
      0 ≤ s ∧
      s ^ 2 = ((((clean [some 12, none, some 8]).map (fun x => (x - m) ^ 2)).sum /
        (clean [some 12, none, some 8]).length : ℚ) : ℝ) :=
  ⟨by decide, mean_std_population_std [some 12, none, some 8] (by decide)⟩

/-- Helper: a value admitted by the throughput loop is strictly positive. -/
theorem tls_admit_pos {r : Row} {v : ℚ} (h : tls_admit r = some v) : 0 < v := by
  unfold tls_admit at h
  split at h
  · exact absurd h (by simp)
  · split at h
    · split at h
      · injection h with h; exact h ▸ ‹_›
      · exact absurd h (by simp)
    · exact absurd h (by simp)

/-- C3: every value admitted into the TLS-throughput series is strictly
positive — rows coercing to `0`, a negative value, or the missing sentinel
are silently excluded — and the value-based exclusion is specific to the
throughput section: the signature-speed collection admits `0`. -/
theorem tls_throughput_values_positive :
    (∀ rows : List Row, ∀ v ∈ tls_throughput_vals rows, 0 < v) ∧
    tls_throughput_vals
      [[("conn_user_sec", "0")], [("conn_user_sec", "-3.5")],
       [("conn_user_sec", "nan")]] = [] ∧
    sig_series [[("alg", "a"), ("keygens_s", "0")]] "a" "keygens_s" = [some 0] := by
  refine ⟨?_, by decide, by decide⟩
  intro rows v hv
  rcases List.mem_filterMap.mp hv with ⟨r, _, hr⟩
  exact tls_admit_pos hr

/-- C3 (witness): a concrete admitted value, shown positive through the
theorem. -/
theorem tls_throughput_values_positive_witness :
    (5 / 2 : ℚ) ∈ tls_throughput_vals [[("conn_user_sec", "2.5")]] ∧ (0 : ℚ) < 5 / 2 :=
  ⟨by decide,
   tls_throughput_values_positive.1 [[("conn_user_sec", "2.5")]] (5 / 2) (by decide)⟩

/-- Helper: `find?` by a key other than `ok` ignores the `ok` entries. -/
theorem find_filter_ne_ok (l : Row) (k : String) (hk : k ≠ "ok") :
    (l.filter (fun p => p.1 != "ok")).find? (fun p => p.1 == k) =
      l.find? (fun p => p.1 == k) := by
  induction l with
  | nil => rfl
  | cons p rest ih =>
    rw [List.filter_cons]
    by_cases hp : p.1 = "ok"
    · have hno : ¬ ((p.1 == k) = true) := by
        rw [hp]; simpa using fun h => hk h.symm
      rw [if_neg (by simp [hp]), ih]
      exact (List.find?_cons_of_neg rest hno).symm
    · rw [if_pos (by simpa using hp)]
      cases hpk : (p.1 == k)
      · have h1 : ¬ ((p.1 == k) = true) := by simp [hpk]
        calc List.find? (fun q => q.1 == k) (p :: List.filter (fun q => q.1 != "ok") rest)
            = List.find? (fun q => q.1 == k) (List.filter (fun q => q.1 != "ok") rest) :=
              List.find?_cons_of_neg _ h1
          _ = List.find? (fun q => q.1 == k) rest := ih
          _ = List.find? (fun q => q.1 == k) (p :: rest) :=
              (List.find?_cons_of_neg (p := fun q => q.1 == k) (a := p) rest h1).symm
      · have h1 : (p.1 == k) = true := hpk
        calc List.find? (fun q => q.1 == k) (p :: List.filter (fun q => q.1 != "ok") rest)
            = some p := List.find?_cons_of_pos (p := fun q => q.1 == k) (a := p) _ h1
          _ = List.find? (fun q => q.1 == k) (p :: rest) :=
              (List.find?_cons_of_pos (p := fun q => q.1 == k) (a := p) rest h1).symm

/-- Helper: reading any other column is unaffected by dropping `ok`. -/
theorem rowGet_dropOk (r : Row) (k : String) (hk : k ≠ "ok") :
    rowGet (dropOk r) k = rowGet r k := by
  unfold rowGet dropOk
  rw [find_filter_ne_ok r k hk]

/-- Helper: the grouping key ignores the `ok` column. -/
theorem sigKey_dropOk (r : Row) : sigKey (dropOk r) = sigKey r := by
  unfold sigKey
  rw [rowGet_dropOk r "alg" (by decide)]

/-- C4 (counterexample): a signature-speed row whose `ok` cell is the falsy
token `"0"` still contributes its measurement to the per-algorithm series —
the validity filter is not applied to the signature-speed file. -/
theorem sig_row_with_falsy_ok_kept :
    is_trueish (some "0") = false ∧
    sig_series [[("alg", "a"), ("sign_s", "5"), ("ok", "0")]] "a" "sign_s" =
      [some 5] := by decide

/-- C4 (amended): `is_trueish` recognizes exactly the claimed truthy tokens
(case-insensitive, absent/blank counting as valid), and the validity filter
is applied only in the TLS-throughput section: a throughput row with a
present falsy `ok` is skipped, while the signature-speed series are
unchanged by deleting the `ok` column altogether. -/
theorem validity_filter_throughput_only :
    (∀ x : Option String, is_trueish x = true ↔
      (x = none ∨ ∃ s, x = some s ∧
        (pyNorm s = "" ∨ pyNorm s ∈ (["1", "true", "yes", "y", "ok"] : List String)))) ∧
    (∀ r : Row, rowHas r "ok" = true → is_trueish (rowGet r "ok") = false →
      tls_admit r = none) ∧
    (∀ (rows : List Row) (alg field : String), field ≠ "ok" →
      sig_series (rows.map dropOk) alg field = sig_series rows alg field) := by
  refine ⟨?_, ?_, ?_⟩
  · intro x
    cases x with
    | none => simp [is_trueish]
    | some s =>
      unfold is_trueish
      by_cases h : pyNorm s = ""
      · simp [h]
      · simp only [h, if_false]
        constructor
        · intro hm
          exact Or.inr ⟨s, rfl, Or.inr (by simpa using hm)⟩
        · rintro (h0 | ⟨s2, hs2, h1 | h2⟩)
          · exact absurd h0 (by simp)
          · cases Option.some.inj hs2; exact absurd h1 h
          · cases Option.some.inj hs2; simpa using h2
  · intro r h1 h2
    unfold tls_admit
    rw [if_pos]
    rw [h1, h2]; rfl
  · intro rows alg field hf
    unfold sig_series
    rw [List.filter_map]
    rw [List.filter_congr (fun r _ => by
      show (sigKey (dropOk r) == some alg) = (sigKey r == some alg)
      rw [sigKey_dropOk])]
    rw [List.map_map]
    exact List.map_congr_left (fun r _ => by
      show to_float (rowGet (dropOk r) field) = to_float (rowGet r field)
      rw [rowGet_dropOk r field hf])

/-- C4 (witness for the amended theorem): a throughput row with falsy `ok`
is dropped, and deleting the `ok` column leaves a signature-speed series
unchanged. -/
theorem validity_filter_throughput_only_witness :
    tls_admit [("ok", "0"), ("conn_user_sec", "2.5")] = none ∧
    sig_series ([[("alg", "a"), ("sign_s", "5"), ("ok", "0")]].map dropOk) "a" "sign_s" =
      sig_series [[("alg", "a"), ("sign_s", "5"), ("ok", "0")]] "a" "sign_s" :=
  ⟨validity_filter_throughput_only.2.1 _ (by decide) (by decide),
   validity_filter_throughput_only.2.2 _ "a" "sign_s" (by decide)⟩

/-- C6: coercion is total (it is a Lean function) and yields the missing
sentinel exactly under the specification's conditions — absent cell,
trimmed lower-cased text among `{"", "nan", "na", "none", "null"}` (the
code's tuple omits `"null"`, but `float("null")` fails, so the behaviour
agrees), or failed numeric parse; otherwise it returns the parsed float. -/
theorem to_float_missing_iff :
    (∀ x : Option String, to_float x = none ↔ to_float_missing_spec x) ∧
    (∀ s : String, pyNorm s ∉ missing_tokens_spec →
      ∀ q : ℚ, parseFloat (pyNorm s) = some q → to_float (some s) = some q) := by
  have hsome : ∀ s : String, to_float (some s) =
      if pyNorm s ∈ (["", "nan", "na", "none"] : List String) then none
      else parseFloat (pyNorm s) := fun s => rfl
  constructor
  · intro x
    cases x with
    | none => simp [to_float, to_float_missing_spec]
    | some s =>
      rw [hsome]
      unfold to_float_missing_spec
      by_cases h : pyNorm s ∈ (["", "nan", "na", "none"] : List String)
      · rw [if_pos h]
        refine iff_of_true rfl (Or.inr ⟨s, rfl, Or.inl ?_⟩)
        have h2 := h
        simp only [List.mem_cons, List.not_mem_nil, or_false] at h2
        unfold missing_tokens_spec
        rcases h2 with h2 | h2 | h2 | h2
        · rw [h2]; decide
        · rw [h2]; decide
        · rw [h2]; decide
        · rw [h2]; decide
      · rw [if_neg h]
        constructor
        · intro hp
          exact Or.inr ⟨s, rfl, Or.inr hp⟩
        · rintro (h0 | ⟨s2, hs2, hm | hp⟩)
          · exact absurd h0 (by simp)
          · cases Option.some.inj hs2
            have h2 := hm
            simp only [missing_tokens_spec, List.mem_cons, List.not_mem_nil,
              or_false] at h2
            rcases h2 with h2 | h2 | h2 | h2 | h2
            · exact absurd (show pyNorm s ∈ (["", "nan", "na", "none"] : List String)
                from by rw [h2]; decide) h
            · exact absurd (show pyNorm s ∈ (["", "nan", "na", "none"] : List String)
                from by rw [h2]; decide) h
            · exact absurd (show pyNorm s ∈ (["", "nan", "na", "none"] : List String)
                from by rw [h2]; decide) h
            · exact absurd (show pyNorm s ∈ (["", "nan", "na", "none"] : List String)
                from by rw [h2]; decide) h
            · rw [h2]; decide
          · cases Option.some.inj hs2
            exact hp
  · intro s hs q hq
    rw [hsome, if_neg, hq]
    intro hc
    apply hs
    have h2 := hc
    simp only [List.mem_cons, List.not_mem_nil, or_false] at h2
    unfold missing_tokens_spec
    rcases h2 with h2 | h2 | h2 | h2
    · rw [h2]; decide
    · rw [h2]; decide
    · rw [h2]; decide
    · rw [h2]; decide

/-- C6 (witness): an ordinary numeric cell is parsed to its value. -/
theorem to_float_missing_iff_witness :
    to_float (some "7.5") = some (15 / 2) :=
  to_float_missing_iff.2 "7.5" (by decide) (15 / 2) (by decide)

/-- C7: aggregation returns missing mean and std on a series with no valid
value, and the sole value with std exactly 0 on a series with one. -/
theorem mean_std_degenerate :
    (∀ vals : List Val, clean vals = [] → mean_std vals = (none, none)) ∧
    (∀ (vals : List Val) (v : ℚ), clean vals = [v] →
      mean_std vals = (some v, some 0)) := by
  constructor
  · intro vals h; simp [mean_std, h]
  · intro vals v h; simp [mean_std, h]

/-- C7 (witness): concrete degenerate series. -/
theorem mean_std_degenerate_witness :
    mean_std [(none : Val)] = (none, none) ∧
    mean_std [some (5 : ℚ), none] = (some 5, some 0) :=
  ⟨mean_std_degenerate.1 [none] (by decide),
   mean_std_degenerate.2 [some 5, none] 5 (by decide)⟩

/-- Helper: one unfolding step of the line scan. -/
theorem parse_pqc_row_go_cons (l0 : String) (rest : List String) (alg : String) :
    parse_pqc_row_go (l0 :: rest) alg =
      match pyTokens l0 with
      | [] => parse_pqc_row_go rest alg
      | p0 :: ps =>
        if p0 = alg then
          match ((p0 :: ps).filter is_num).reverse with
          | v :: s :: k :: _ => some (k, s, v)
          | _ => parse_pqc_row_go rest alg
        else parse_pqc_row_go rest alg := rfl

/-- Helper: on the first line whose leading token is the algorithm, when it
carries at least three numeric tokens, the scan returns their last three. -/
theorem parse_pqc_row_go_first (lines : List String) (alg line : String)
    (hfind : lines.find? (fun l => (pyTokens l).head? == some alg) = some line)
    (h3 : 3 ≤ ((pyTokens line).filter is_num).length) :
    parse_pqc_row_go lines alg = lastThree ((pyTokens line).filter is_num) := by
  induction lines with
  | nil => simp at hfind
  | cons l0 rest ih =>
    by_cases hl : ((pyTokens l0).head? == some alg) = true
    · have hline : line = l0 := by
        rw [List.find?_cons_of_pos (p := fun l => (pyTokens l).head? == some alg)
          rest hl] at hfind
        exact (Option.some.inj hfind).symm
      subst hline
      rw [parse_pqc_row_go_cons]
      cases htok : pyTokens line with
      | nil => rw [htok] at hl; simp at hl
      | cons p0 ps =>
        have hp0 : p0 = alg := by
          rw [htok] at hl
          simpa using hl
        subst hp0
        rw [htok] at h3
        dsimp only
        rcases hrev : ((p0 :: ps).filter is_num).reverse with _ | ⟨v, _ | ⟨s, _ | ⟨k, tl⟩⟩⟩
        · exfalso
          have hlen := congrArg List.length hrev
          rw [List.length_reverse] at hlen
          simp only [List.length_nil] at hlen
          omega
        · exfalso
          have hlen := congrArg List.length hrev
          rw [List.length_reverse] at hlen
          simp only [List.length_cons, List.length_nil] at hlen
          omega
        · exfalso
          have hlen := congrArg List.length hrev
          rw [List.length_reverse] at hlen
          simp only [List.length_cons, List.length_nil] at hlen
          omega
        · simp [hrev, lastThree]
    · have hrest : rest.find? (fun l => (pyTokens l).head? == some alg) = some line := by
        rw [List.find?_cons_of_neg (p := fun l => (pyTokens l).head? == some alg)
          rest hl] at hfind
        exact hfind
      rw [parse_pqc_row_go_cons]
      cases htok : pyTokens l0 with
      | nil => exact ih hrest
      | cons p0 ps =>
        have hp0 : ¬ (p0 = alg) := by
          intro hc
          apply hl
          rw [htok, hc]
          simp
        dsimp only
        rw [if_neg hp0]
        exact ih hrest

/-- C9: for a generic algorithm identifier, extraction returns, from the
first line whose leading whitespace token equals the identifier (provided
it carries at least three numeric tokens), the last three tokens that parse
as numbers, in order; in particular the specification's `mldsa65` scenario
line yields `("9000.3", "10000.4", "20000.5")`. -/
theorem parse_pqc_row_last_three :
    (∀ text alg line, firstAlgLine text alg = some line →
      3 ≤ ((pyTokens line).filter is_num).length →
      parse_pqc_row text alg = lastThree ((pyTokens line).filter is_num)) ∧
    parse_pqc_row "mldsa65  123.0  45000.1  67000.2  9000.3  10000.4  20000.5"
      "mldsa65" = some ("9000.3", "10000.4", "20000.5") := by
  refine ⟨?_, by decide⟩
  intro text alg line hfind h3
  exact parse_pqc_row_go_first (pyLines text) alg line hfind h3

/-- C9 (witness): a concrete text whose designated line feeds the rule. -/
theorem parse_pqc_row_last_three_witness :
    parse_pqc_row "header\nmldsa65 12 3.5 4.5 5.5" "mldsa65" =
      lastThree ((pyTokens "mldsa65 12 3.5 4.5 5.5").filter is_num) :=
  parse_pqc_row_last_three.1 _ "mldsa65" "mldsa65 12 3.5 4.5 5.5"
    (by decide) (by decide)

/-- C10: the bootstrap interval is a deterministic function of the cleaned
input series, the statistic, the iteration count, the alpha level, and the
seeded generator stream — two runs agreeing on those (in particular, on the
seed, which fully determines the stream) return identical intervals. -/
theorem bootstrap_ci_deterministic (vals1 vals2 : List Val) (stat : String)
    (iters : ℕ) (alpha : ℚ) (rng : ℕ → ℕ)
    (h : clean vals1 = clean vals2) :
    bootstrap_ci vals1 stat iters alpha rng =
      bootstrap_ci vals2 stat iters alpha rng := by
  unfold bootstrap_ci
  rw [h]

/-- C10 (witness): two series with the same valid values (the missing
entries placed differently) produce the same interval. -/
theorem bootstrap_ci_deterministic_witness :
    bootstrap_ci [some 1, none, some 2] "mean" 3 (1 / 20) (fun k => k + 5) =
      bootstrap_ci [none, some 1, some 2] "mean" 3 (1 / 20) (fun k => k + 5) :=
  bootstrap_ci_deterministic _ _ "mean" 3 (1 / 20) (fun k => k + 5) (by decide)

/-- Helper: lexicographic comparison is irreflexive. -/
theorem strLtB_irrefl : ∀ l : List Char, strLtB l l = false
  | [] => rfl
  | c :: cs => by
    show (if c < c then true else if c < c then false else strLtB cs cs) = false
    rw [if_neg (lt_irrefl c), if_neg (lt_irrefl c)]
    exact strLtB_irrefl cs

/-- Helper: lexicographic comparison is transitive. -/
theorem strLtB_trans (a : List Char) : ∀ b c : List Char,
    strLtB a b = true → strLtB b c = true → strLtB a c = true := by
  induction a with
  | nil =>
    intro b c hab hbc
    cases b with
    | nil => simp [strLtB] at hab
    | cons b0 bs =>
      cases c with
      | nil => simp [strLtB] at hbc
      | cons c0 cs => rfl
  | cons a0 as ih =>
    intro b c hab hbc
    cases b with
    | nil => simp [strLtB] at hab
    | cons b0 bs =>
      cases c with
      | nil => simp [strLtB] at hbc
      | cons c0 cs =>
        rw [show strLtB (a0 :: as) (b0 :: bs) =
          if a0 < b0 then true else if b0 < a0 then false else strLtB as bs from rfl] at hab
        rw [show strLtB (b0 :: bs) (c0 :: cs) =
          if b0 < c0 then true else if c0 < b0 then false else strLtB bs cs from rfl] at hbc
        show (if a0 < c0 then true else if c0 < a0 then false else strLtB as cs) = true
        by_cases h1 : a0 < b0 <;> by_cases h2 : b0 < c0
        · rw [if_pos (lt_trans h1 h2)]
        · rw [if_neg h2] at hbc
          by_cases h3 : c0 < b0
          · rw [if_pos h3] at hbc; exact absurd hbc (by simp)
          · rw [if_pos (lt_of_lt_of_le h1 (le_of_not_lt h3))]
        · rw [if_neg h1] at hab
          by_cases h3 : b0 < a0
          · rw [if_pos h3] at hab; exact absurd hab (by simp)
          · rw [if_pos (lt_of_le_of_lt (le_of_not_lt h3) h2)]
        · rw [if_neg h1] at hab
          rw [if_neg h2] at hbc
          by_cases h3 : b0 < a0
          · rw [if_pos h3] at hab; exact absurd hab (by simp)
          rw [if_neg h3] at hab
          by_cases h4 : c0 < b0
          · rw [if_pos h4] at hbc; exact absurd hbc (by simp)
          rw [if_neg h4] at hbc
          have hac : a0 = c0 :=
            (le_antisymm (le_of_not_lt h3) (le_of_not_lt h1)).trans
              (le_antisymm (le_of_not_lt h4) (le_of_not_lt h2))
          rw [if_neg (by rw [hac]; exact lt_irrefl c0),
            if_neg (by rw [hac]; exact lt_irrefl c0)]
          exact ih bs cs hab hbc

/-- Helper: lexicographic comparison is total up to equality. -/
theorem strLtB_total (a : List Char) : ∀ b : List Char,
    strLtB a b = true ∨ strLtB b a = true ∨ a = b := by
  induction a with
  | nil =>
    intro b
    cases b with
    | nil => exact Or.inr (Or.inr rfl)
    | cons b0 bs => exact Or.inl rfl
  | cons a0 as ih =>
    intro b
    cases b with
    | nil => exact Or.inr (Or.inl rfl)
    | cons b0 bs =>
      rcases lt_trichotomy a0 b0 with h | h | h
      · left
        show (if a0 < b0 then true else if b0 < a0 then false else strLtB as bs) = true
        rw [if_pos h]
      · subst h
        rcases ih bs with h2 | h2 | h2
        · left
          show (if a0 < a0 then true else if a0 < a0 then false else strLtB as bs) = true
          rw [if_neg (lt_irrefl a0), if_neg (lt_irrefl a0)]
          exact h2
        · right; left
          show (if a0 < a0 then true else if a0 < a0 then false else strLtB bs as) = true
          rw [if_neg (lt_irrefl a0), if_neg (lt_irrefl a0)]
          exact h2
        · right; right; rw [h2]
      · right; left
        show (if b0 < a0 then true else if a0 < b0 then false else strLtB bs as) = true
        rw [if_pos h]

/-- Helper: the Boolean order as a disjunction. -/
theorem pyStrLe_iff (a b : String) :
    pyStrLe a b = true ↔ strLtB a.data b.data = true ∨ a = b := by
  unfold pyStrLe
  rw [Bool.or_eq_true, beq_iff_eq]

instance : IsTrans String strLeProp := ⟨by
  intro a b c hab hbc
  unfold strLeProp at hab hbc ⊢
  rw [pyStrLe_iff] at hab hbc ⊢
  rcases hab with hab | rfl
  · rcases hbc with hbc | rfl
    · exact Or.inl (strLtB_trans _ _ _ hab hbc)
    · exact Or.inl hab
  · exact hbc⟩

instance : IsTotal String strLeProp := ⟨by
  intro a b
  unfold strLeProp
  rw [pyStrLe_iff, pyStrLe_iff]
  rcases strLtB_total a.data b.data with h | h | h
  · exact Or.inl (Or.inl h)
  · exact Or.inr (Or.inl h)
  · exact Or.inl (Or.inr (congrArg String.mk h))⟩

instance : IsAntisymm String strLeProp := ⟨by
  intro a b hab hba
  unfold strLeProp at hab hba
  rw [pyStrLe_iff] at hab hba
  rcases hab with hab | rfl
  · rcases hba with hba | rfl
    · exfalso
      have hx := strLtB_trans _ _ _ hab hba
      rw [strLtB_irrefl] at hx
      exact Bool.noConfusion hx
    · rfl
  · rfl⟩

/-- Helper: membership after a key insertion. -/
theorem mem_insertKey (ks : List String) (k a : String) :
    a ∈ insertKey ks k ↔ a ∈ ks ∨ a = k := by
  unfold insertKey
  split_ifs with h
  · constructor
    · exact Or.inl
    · rintro (h1 | rfl)
      · exact h1
      · exact h
  · simp [List.mem_append]

/-- Helper: key insertion preserves distinctness. -/
theorem nodup_insertKey (ks : List String) (k : String) (h : ks.Nodup) :
    (insertKey ks k).Nodup := by
  unfold insertKey
  split_ifs with hk
  · exact h
  · simp [List.nodup_append, h, hk]

/-- Helper: membership after one grouping step. -/
theorem mem_sigStep (ks : List String) (r : Row) (a : String) :
    a ∈ sigStep ks r ↔ a ∈ ks ∨ sigKey r = some a := by
  unfold sigStep
  cases h : sigKey r with
  | none => simp
  | some b => rw [mem_insertKey]; simp [eq_comm]

/-- Helper: one grouping step preserves distinctness. -/
theorem nodup_sigStep (ks : List String) (r : Row) (h : ks.Nodup) :
    (sigStep ks r).Nodup := by
  unfold sigStep
  cases sigKey r
  · exact h
  · exact nodup_insertKey _ _ h

/-- Helper: membership in the folded key set. -/
theorem mem_foldl_sigStep (rows : List Row) : ∀ (ks : List String) (a : String),
    a ∈ rows.foldl sigStep ks ↔ a ∈ ks ∨ ∃ r ∈ rows, sigKey r = some a := by
  induction rows with
  | nil => intro ks a; simp
  | cons r rest ih =>
    intro ks a
    rw [List.foldl_cons, ih, mem_sigStep]
    constructor
    · rintro ((h | h) | h)
      · exact Or.inl h
      · exact Or.inr ⟨r, List.mem_cons_self r rest, h⟩
      · rcases h with ⟨r2, hr2, hk⟩
        exact Or.inr ⟨r2, List.mem_cons_of_mem _ hr2, hk⟩
    · rintro (h | ⟨r2, hr2, hk⟩)
      · exact Or.inl (Or.inl h)
      · rcases List.mem_cons.mp hr2 with rfl | hr2
        · exact Or.inl (Or.inr hk)
        · exact Or.inr ⟨r2, hr2, hk⟩

/-- Helper: the folded key set is duplicate-free. -/
theorem nodup_foldl_sigStep (rows : List Row) : ∀ ks : List String,
    ks.Nodup → (rows.foldl sigStep ks).Nodup := by
  induction rows with
  | nil => intro ks h; exact h
  | cons r rest ih => intro ks h; exact ih _ (nodup_sigStep _ _ h)

/-- Helper: an algorithm appears in the key set iff some row groups under it. -/
theorem mem_sig_algs (rows : List Row) (a : String) :
    a ∈ sig_algs rows ↔ ∃ r ∈ rows, sigKey r = some a := by
  unfold sig_algs
  rw [mem_foldl_sigStep]
  simp

/-- Helper: the key set has no duplicates. -/
theorem nodup_sig_algs (rows : List Row) : (sig_algs rows).Nodup :=
  nodup_foldl_sigStep rows [] List.nodup_nil

/-- C5 (counterexample): the rendered order is plain lexicographic: the
unlisted identifier `aardvark` precedes the classical scheme `ecdsap256`
(which any preferred ordering would place first), and `falcon1024`
precedes `falcon512` (the reverse of the canonical family order). -/
theorem sig_order_not_preferred_first :
    sig_sorted_algs [[("alg", "ecdsap256")], [("alg", "aardvark")]] =
      ["aardvark", "ecdsap256"] ∧
    sig_sorted_algs [[("alg", "falcon512")], [("alg", "falcon1024")]] =
      ["falcon1024", "falcon512"] := by decide

/-- C5 (amended): the table is ordered lexicographically by the raw
algorithm key, with no preferred-list stage; the order is sorted, lists
exactly the grouped keys, and is independent of the input row order. -/
theorem sig_table_order_lexicographic (rows1 rows2 : List Row)
    (hperm : rows1.Perm rows2) :
    sig_sorted_algs rows1 = sig_sorted_algs rows2 ∧
    List.Sorted strLeProp (sig_sorted_algs rows1) ∧
    (sig_sorted_algs rows1).Perm (sig_algs rows1) := by
  refine ⟨?_, List.sorted_insertionSort _ _, List.perm_insertionSort _ _⟩
  have hmem : ∀ a, a ∈ sig_algs rows1 ↔ a ∈ sig_algs rows2 := by
    intro a
    rw [mem_sig_algs, mem_sig_algs]
    constructor
    · rintro ⟨r, hr, hk⟩; exact ⟨r, hperm.mem_iff.mp hr, hk⟩
    · rintro ⟨r, hr, hk⟩; exact ⟨r, hperm.mem_iff.mpr hr, hk⟩
  have hp : (sig_algs rows1).Perm (sig_algs rows2) :=
    (List.perm_ext_iff_of_nodup (nodup_sig_algs rows1) (nodup_sig_algs rows2)).mpr hmem
  exact List.eq_of_perm_of_sorted
    ((List.perm_insertionSort _ _).trans (hp.trans (List.perm_insertionSort _ _).symm))
    (List.sorted_insertionSort _ _) (List.sorted_insertionSort _ _)

/-- C5 (witness for the amended theorem): two row orders of the same data
produce the same sorted, duplicate-free table order. -/
theorem sig_table_order_lexicographic_witness :
    sig_sorted_algs [[("alg", "b")], [("alg", "a")]] =
      sig_sorted_algs [[("alg", "a")], [("alg", "b")]] ∧
    List.Sorted strLeProp (sig_sorted_algs [[("alg", "b")], [("alg", "a")]]) ∧
    (sig_sorted_algs [[("alg", "b")], [("alg", "a")]]).Perm
      (sig_algs [[("alg", "b")], [("alg", "a")]]) :=
  sig_table_order_lexicographic [[("alg", "b")], [("alg", "a")]]
    [[("alg", "a")], [("alg", "b")]] (List.Perm.swap _ _ _)

/-- Helper: a list that is a permutation of a constant list is that list. -/
theorem eq_replicate_of_perm_replicate {l : List ℚ} {n : ℕ} {c : ℚ}
    (h : l.Perm (List.replicate n c)) : l = List.replicate n c := by
  rw [List.eq_replicate_iff]
  exact ⟨by rw [h.length_eq, List.length_replicate],
    fun b hb => List.eq_of_mem_replicate (h.mem_iff.mp hb)⟩

/-- Helper: in-range `getD` on a constant list. -/
theorem getD_replicate_of_lt (n : ℕ) (c : ℚ) (k : ℕ) (h : k < n) :
    (List.replicate n c).getD k 0 = c := by
  have h2 : k < (List.replicate n c).length := by simpa using h
  rw [List.getD_eq_getElem?_getD, List.getElem?_eq_getElem h2, Option.getD_some]
  exact List.getElem_replicate c h2

/-- Helper: a resample drawn from a constant cleaned series is constant,
whatever the generator draws. -/
theorem resample_const (cv : List ℚ) (c : ℚ) (rng : ℕ → ℕ) (t : ℕ)
    (hc : ∀ v ∈ cv, v = c) (hn : cv.length ≠ 0) :
    resample cv rng t = List.replicate cv.length c := by
  rw [List.eq_replicate_iff]
  constructor
  · simp [resample]
  · intro b hb
    rcases List.mem_map.mp hb with ⟨j, _, rfl⟩
    have hi : rng (t * cv.length + j) % cv.length < cv.length :=
      Nat.mod_lt _ (Nat.pos_of_ne_zero hn)
    rw [List.getD_eq_getElem?_getD, List.getElem?_eq_getElem hi, Option.getD_some]
    exact hc _ (List.getElem_mem hi)

/-- Helper: the mean of a constant series is the constant. -/
theorem mean_q_replicate (n : ℕ) (c : ℚ) (hn : n ≠ 0) :
    mean_q (List.replicate n c) = c := by
  unfold mean_q
  rw [List.sum_replicate, List.length_replicate, nsmul_eq_mul]
  exact mul_div_cancel_left₀ c (by exact_mod_cast hn)

/-- Helper: the median of a constant series is the constant. -/
theorem median_core_replicate (n : ℕ) (c : ℚ) (hn : n ≠ 0) :
    median_core (List.replicate n c) = c := by
  unfold median_core
  dsimp only
  have hs : (List.replicate n c).insertionSort (fun a b => a ≤ b) =
      List.replicate n c :=
    eq_replicate_of_perm_replicate (List.perm_insertionSort _ _)
  rw [hs, List.length_replicate]
  have hlt : n / 2 < n := Nat.div_lt_self (Nat.pos_of_ne_zero hn) one_lt_two
  split_ifs with hodd
  · exact getD_replicate_of_lt n c (n / 2) hlt
  · rw [getD_replicate_of_lt n c (n / 2 - 1) (lt_of_le_of_lt (Nat.sub_le _ _) hlt),
      getD_replicate_of_lt n c (n / 2) hlt]
    exact add_self_div_two c

/-- Helper: the clamped percentile index is in range. -/
theorem clampIdx_lt (iters : ℕ) (i : ℤ) (h : 1 ≤ iters) :
    clampIdx iters i < iters := by
  unfold clampIdx
  have h1 : min ((iters : ℤ) - 1) i ≤ (iters : ℤ) - 1 := min_le_left _ _
  have h2 : max 0 (min ((iters : ℤ) - 1) i) ≤ (iters : ℤ) - 1 :=
    max_le (by omega) h1
  have h3 : (0 : ℤ) ≤ max 0 (min ((iters : ℤ) - 1) i) := le_max_left _ _
  omega

/-- C8: on a series whose valid values all equal one constant `c` with
`n ≥ 2`, the bootstrap interval is exactly `[c, c]`, for every generator
stream (hence every seed), every iteration count `≥ 1`, every alpha, and
both statistics (`stat` ranges over all Python strings: `"median"` selects
the median, anything else the mean). -/
theorem bootstrap_ci_constant (vals : List Val) (c : ℚ) (stat : String)
    (iters : ℕ) (alpha : ℚ) (rng : ℕ → ℕ)
    (hc : ∀ v ∈ clean vals, v = c) (hn : 2 ≤ (clean vals).length)
    (hit : 1 ≤ iters) :
    bootstrap_ci vals stat iters alpha rng = (some c, some c) := by
  unfold bootstrap_ci
  dsimp only
  rw [if_neg (by omega)]
  have hlen : (clean vals).length ≠ 0 := by omega
  have hraw : (List.range iters).map (fun t =>
      if stat = "median" then median_core (resample (clean vals) rng t)
      else mean_q (resample (clean vals) rng t)) = List.replicate iters c := by
    rw [List.eq_replicate_iff]
    refine ⟨by simp, ?_⟩
    intro b hb
    rcases List.mem_map.mp hb with ⟨t, _, rfl⟩
    rw [resample_const (clean vals) c rng t hc hlen]
    split_ifs
    · exact median_core_replicate _ c hlen
    · exact mean_q_replicate _ c hlen
  rw [hraw]
  rw [eq_replicate_of_perm_replicate
    (List.perm_insertionSort (fun a b => a ≤ b) (List.replicate iters c))]
  rw [getD_replicate_of_lt iters c _ (clampIdx_lt iters _ hit),
    getD_replicate_of_lt iters c _ (clampIdx_lt iters _ hit)]

/-- C8 (witness): a concrete constant series, nontrivial seed stream, two
iterations, median statistic. -/
theorem bootstrap_ci_constant_witness :
    bootstrap_ci [some 3, none, some 3] "median" 2 (1 / 20) (fun k => k * 5 + 2) =
      (some 3, some 3) :=
  bootstrap_ci_constant [some 3, none, some 3] 3 "median" 2 (1 / 20)
    (fun k => k * 5 + 2) (by decide) (by decide) (by decide)

end PqcBench

